import Mathlib

/-!
Verification of the policy compilation, evaluation-result correlation and
classification pipeline of the gke-review repository, as implemented in
`internal/policy/policy.go`. Go dynamic values (`interface{}`) are embedded
as the inductive `GoVal`; Go maps over string keys are embedded as
association lists with Go's lookup/insert semantics; fallible Go functions
returning `(T, error)` become `Except String T`, and functions that mutate
a receiver and return an error become functions returning the updated
receiver together with an optional error.
-/

namespace GkeReview

/-- Embedding of a Go `interface{}` value as produced by rego evaluation:
nil, booleans, numbers, strings, `[]interface{}` and `map[string]interface{}`. -/
inductive GoVal where
  | null : GoVal
  | bool (b : Bool) : GoVal
  | num (n : Int) : GoVal
  | str (s : String) : GoVal
  | list (xs : List GoVal) : GoVal
  | map (kvs : List (String × GoVal)) : GoVal

/-- Go map read `m[k]` with its `ok` flag: first entry with the given key. -/
def assocFind? {α : Type} : List (String × α) → String → Option α
  | [], _ => none
  | (k, v) :: rest, key => if k = key then some v else assocFind? rest key

/-- Go map read `m[k]` returning the zero value `d` when the key is absent. -/
def assocGet {α : Type} (m : List (String × α)) (key : String) (d : α) : α :=
  match assocFind? m key with
  | some v => v
  | none => d

/-- Go map write `m[k] = v`: replaces the entry for `k`, or appends one. -/
def assocSet {α : Type} : List (String × α) → String → α → List (String × α)
  | [], key, v => [(key, v)]
  | (k, w) :: rest, key, v =>
    if k = key then (key, v) :: rest else (k, w) :: assocSet rest key v

/-- The `Policy` struct of `internal/policy/policy.go` (lines 17-25). Processing
errors are carried as their messages. -/
structure Policy where
  Name : String
  FullName : String
  Description : String
  Group : String
  Valid : Bool
  Violations : List String
  ProcessingErrors : List String
deriving DecidableEq

/-- The Go zero value `Policy{}`. -/
def Policy.empty : Policy :=
  { Name := "", FullName := "", Description := "", Group := "",
    Valid := false, Violations := [], ProcessingErrors := [] }

/-- The `PolicyEvaluationResult` struct (lines 27-32): successful policies in a
map keyed by group, errored policies in a flat list, and the two counters. -/
structure PolicyEvaluationResult where
  successful : List (String × List Policy)
  errored : List Policy
  validCount : Nat
  violatedCount : Nat
deriving DecidableEq

/-- The Go zero value `PolicyEvaluationResult{}` built by `processRegoResult`. -/
def PolicyEvaluationResult.empty : PolicyEvaluationResult :=
  { successful := [], errored := [], validCount := 0, violatedCount := 0 }

/-- Accessor `func (r *PolicyEvaluationResult) Policies(group string) []*Policy`. -/
def PolicyEvaluationResult.Policies (r : PolicyEvaluationResult) (group : String) : List Policy :=
  assocGet r.successful group []

/-- Accessor `func (r *PolicyEvaluationResult) ValidCount() int`. -/
def PolicyEvaluationResult.ValidCount (r : PolicyEvaluationResult) : Nat :=
  r.validCount

/-- Accessor `func (r *PolicyEvaluationResult) ViolatedCount() int`. -/
def PolicyEvaluationResult.ViolatedCount (r : PolicyEvaluationResult) : Nat :=
  r.violatedCount

/-- Accessor `func (r *PolicyEvaluationResult) ErroredCount() int`. -/
def PolicyEvaluationResult.ErroredCount (r : PolicyEvaluationResult) : Nat :=
  r.errored.length

/-- Method `AppendSuccessfulPolicy` (lines 95-106): append to the group's slice in
the `successful` map and bump `validCount` or `violatedCount` by the verdict. -/
def PolicyEvaluationResult.AppendSuccessfulPolicy
    (r : PolicyEvaluationResult) (policy : Policy) : PolicyEvaluationResult :=
  { r with
    successful := assocSet r.successful policy.Group
      (assocGet r.successful policy.Group [] ++ [policy]),
    validCount := if policy.Valid then r.validCount + 1 else r.validCount,
    violatedCount := if policy.Valid then r.violatedCount else r.violatedCount + 1 }

/-- Method `AppendErroredPolicy` (lines 108-110). -/
def PolicyEvaluationResult.AppendErroredPolicy
    (r : PolicyEvaluationResult) (policy : Policy) : PolicyEvaluationResult :=
  { r with errored := r.errored ++ [policy] }

/-- Function `getStringFromInterfaceMap` (lines 200-210). -/
def getStringFromInterfaceMap (name : String) (m : List (String × GoVal)) :
    Except String String :=
  match assocFind? m name with
  | none => .error ("map does not contain key: " ++ name)
  | some v =>
    match v with
    | .str s => .ok s
    | _ => .error ("key " ++ name ++ " is not a string")

/-- Function `getBoolFromInterfaceMap` (lines 212-222). -/
def getBoolFromInterfaceMap (name : String) (m : List (String × GoVal)) :
    Except String Bool :=
  match assocFind? m name with
  | none => .error ("map does not contain key: " ++ name)
  | some v =>
    match v with
    | .bool b => .ok b
    | _ => .error ("key " ++ name ++ " is not a bool")

/-- The message produced for a non-string element at index `i` of the
`violation` list (line 237 of the source). -/
def listElemErr (name : String) (i : Nat) : String :=
  "key " ++ name ++ " list element " ++ toString i ++ " is not a string"

/-- The element-conversion loop of `getStringListFromInterfaceMap`
(lines 233-240): walk the list in order, failing at the first non-string. -/
def toStringList (name : String) : List GoVal → Nat → Except String (List String)
  | [], _ => .ok []
  | v :: rest, i =>
    match v with
    | .str s =>
      match toStringList name rest (i + 1) with
      | .ok l => .ok (s :: l)
      | .error e => .error e
    | _ => .error (listElemErr name i)

/-- Function `getStringListFromInterfaceMap` (lines 224-242). -/
def getStringListFromInterfaceMap (name : String) (m : List (String × GoVal)) :
    Except String (List String) :=
  match assocFind? m name with
  | none => .error ("map does not contain key: " ++ name)
  | some v =>
    match v with
    | .list vList => toStringList name vList 0
    | _ => .error ("key " ++ name ++ " is not a list of interface values")

/-- Method `Policy.mapRegoPolicyData` (lines 167-198): copies name, description,
group, valid and violation in order out of the `data` map, stopping with an
error at the first failure; fields already read keep their new values. -/
def Policy.mapRegoPolicyData (p : Policy) (data : GoVal) : Policy × Option String :=
  match data with
  | .map dataMap =>
    match getStringFromInterfaceMap "name" dataMap with
    | .error e => (p, some e)
    | .ok fullName =>
      let p1 := { p with FullName := fullName }
      match getStringFromInterfaceMap "description" dataMap with
      | .error e => (p1, some e)
      | .ok description =>
        let p2 := { p1 with Description := description }
        match getStringFromInterfaceMap "group" dataMap with
        | .error e => (p2, some e)
        | .ok group =>
          let p3 := { p2 with Group := group }
          match getBoolFromInterfaceMap "valid" dataMap with
          | .error e => (p3, some e)
          | .ok valid =>
            let p4 := { p3 with Valid := valid }
            match getStringListFromInterfaceMap "violation" dataMap with
            | .error e => (p4, some e)
            | .ok violations => ({ p4 with Violations := violations }, none)
  | _ => (p, some "failed to convert value to a string-keyed map")

/-- Function `parseRegoExpressionValue` (lines 145-165): a non-map value or a missing
`name` key is a hard error; a missing `data` key or a failure inside
`mapRegoPolicyData` becomes a processing error on the returned policy. -/
def parseRegoExpressionValue (value : GoVal) : Except String Policy :=
  match value with
  | .map valueMap =>
    match getStringFromInterfaceMap "name" valueMap with
    | .error _ => .error "policy map does not contain key: name"
    | .ok name =>
      let policy := { Policy.empty with Name := name }
      match assocFind? valueMap "data" with
      | none => .ok { policy with ProcessingErrors := ["policy map does not contain key: data"] }
      | some policyData =>
        match policy.mapRegoPolicyData policyData with
        | (p, some e) => .ok { p with ProcessingErrors := [e] }
        | (p, none) => .ok p
  | _ => .error "rego expression value is not a string-keyed map"

/-- One `rego.ExpressionValue` (only its `Value` field is read by the code). -/
structure ExpressionValue where
  Value : GoVal
  Text : String := ""

/-- One `rego.Result` (the code reads only `Expressions`). -/
structure RegoResult where
  Expressions : List ExpressionValue

/-- Function `getExpressionValueList` (lines 133-143): the expression at `index` must
exist and its value must be a `[]interface{}`. -/
def getExpressionValueList (regoResult : RegoResult) (index : Nat) :
    Except String (List GoVal) :=
  if regoResult.Expressions.length ≤ index then
    .error ("no expresion with index " ++ toString index ++ " in rego result")
  else
    match (regoResult.Expressions.getD index { Value := GoVal.null }).Value with
    | .list l => .ok l
    | _ => .error ("rego expression value is not a list of interface values")

/-- The body of the loop of `processRegoResult` (lines 118-129): a parse
error appends a fresh unnamed policy carrying the error to the errored list;
a parsed policy with processing errors is appended to the errored list;
otherwise the policy is appended to the successful map. -/
def processOne (results : PolicyEvaluationResult) (result : GoVal) : PolicyEvaluationResult :=
  match parseRegoExpressionValue result with
  | .error err => results.AppendErroredPolicy { Policy.empty with ProcessingErrors := [err] }
  | .ok policy =>
    if policy.ProcessingErrors.length > 0 then results.AppendErroredPolicy policy
    else results.AppendSuccessfulPolicy policy

/-- Function `processRegoResult` (lines 112-131), with the Go `(*Result, error)`
return pair embedded as a pair of options. -/
def processRegoResult (regoResult : RegoResult) :
    Option PolicyEvaluationResult × Option String :=
  match getExpressionValueList regoResult 0 with
  | .error err =>
    (none, some ("failed to get expression value from rego result: " ++ err))
  | .ok values =>
    (some (values.foldl processOne PolicyEvaluationResult.empty), none)

/-- Struct `PolicyFile` as used by `policy.go` and its tests (its defining file is
absent from src): logical name, full path and raw source text. -/
structure PolicyFile where
  Name : String
  FullName : String
  Content : String

/-- The module-map construction of `EvaluatePolicies` (lines 42-45):
`modules[file.FullName] = file.Content` over all files, in order. -/
def mkModules (files : List PolicyFile) : List (String × String) :=
  files.foldl (fun m f => assocSet m f.FullName f.Content) []

/-- Modelled from the spec: the rule compiler (`ast.CompileModules` of the
external OPA library, wrapped by the repository's `PolicyAgent.Compile`,
which is absent from src — only its tests remain). Syntactic validity of a
single source text is the external parser's judgment, abstracted as the
oracle `parses`. Per spec section 4.1 the call is all-or-nothing: any
invalid source fails the whole batch with an error identifying the
offending file, and no module set is produced. -/
def Compile (parses : String → Bool) (modules : List (String × String)) :
    Except String (List (String × String)) :=
  match modules.find? (fun kv => ! parses kv.2) with
  | some kv => .error ("compile error in " ++ kv.1)
  | none => .ok modules

/-- Method `EvaluatePolicies` (lines 41-63): build the module map, compile it, run
the external rego evaluation (abstracted as `evalRego`), reject an empty
result set, and process the first result. The Go `(*PolicyEvaluationResult,
error)` return pair is embedded as a pair of options. -/
def EvaluatePolicies (parses : String → Bool)
    (evalRego : List (String × String) → Except String (List RegoResult))
    (files : List PolicyFile) : Option PolicyEvaluationResult × Option String :=
  match Compile parses (mkModules files) with
  | .error e => (none, some e)
  | .ok compiled =>
    match evalRego compiled with
    | .error e => (none, some ("failed to evaluate rego: " ++ e))
    | .ok rs =>
      if rs.length < 1 then (none, some "rego evaluation returned empty result set")
      else processRegoResult (rs.headD { Expressions := [] })

/-- The required policy namespace prefix of compiled modules (the constant
`regoPolicyPackage` referenced by the tests). -/
def regoPolicyPackage : String := "gke.policy"

/-- The policy record of the newer pipeline tested by `policy_test.go`
(`Policy` with `File` and `Title`), used by the metadata extractor. -/
structure PolicyMeta where
  Name : String
  File : String
  Title : String
  Description : String
  Group : String
deriving DecidableEq

/-- Modelled from the spec: `Policy.MetadataErrors` (absent from src — only
`TestMetadataErrors` remains). Per spec section 4.2 it yields one distinct
diagnostic per missing required field among title, description and group. -/
def PolicyMeta.MetadataErrors (p : PolicyMeta) : List String :=
  (if p.Title = "" then ["policy does not have the title metadata field"] else []) ++
  (if p.Description = "" then ["policy does not have the description metadata field"] else []) ++
  (if p.Group = "" then ["policy does not have the group metadata field"] else [])

/-- A compiled rego module as seen by the metadata extractor: package
identity, logical name, file path and the annotation header fields (empty
when the header omits them). -/
structure RegoModule where
  Package : String
  Name : String
  File : String
  Title : String
  Description : String
  Group : String

/-- Character-by-character check that the first list begins the second. -/
def charsLead : List Char → List Char → Bool
  | [], _ => true
  | _ :: _, [] => false
  | c :: cs, d :: ds => (c == d) && charsLead cs ds

/-- A string begins with the given namespace text. -/
def strStartsWithText (pre s : String) : Bool :=
  charsLead pre.data s.data

/-- A string ends with the given suffix text. -/
def strEndsWithText (suf s : String) : Bool :=
  charsLead suf.data.reverse s.data.reverse

/-- Modelled from the spec: the test-module naming convention of spec
section 4.2 — a logical name carrying a "_test" suffix (file names may
carry a trailing ".rego" extension). -/
def isTestModule (nm : String) : Bool :=
  strEndsWithText "_test" nm || strEndsWithText "_test.rego" nm

/-- Modelled from the spec: eligibility of a compiled module for metadata
extraction — its identity starts with the required policy-namespace prefix
and its logical name is not a test module. -/
def eligibleModule (m : RegoModule) : Bool :=
  strStartsWithText regoPolicyPackage m.Package && ! isTestModule m.Name

/-- Modelled from the spec: `Policy.MapModule` (absent from src — only
`TestMapModule` remains) copies identity, file path and the annotation
fields onto a policy record. -/
def RegoModule.mapModule (m : RegoModule) : PolicyMeta :=
  { Name := m.Package, File := m.File, Title := m.Title,
    Description := m.Description, Group := m.Group }

/-- Modelled from the spec: the per-module step of the metadata extractor.
An ineligible module is silently skipped; an eligible module with complete
metadata yields a policy and one with missing metadata yields its
diagnostics instead. -/
def parseCompiledStep (m : RegoModule) (acc : List PolicyMeta × List String) :
    List PolicyMeta × List String :=
  if eligibleModule m then
    let p := m.mapModule
    let errs := p.MetadataErrors
    if errs.isEmpty then (p :: acc.1, acc.2) else (acc.1, errs ++ acc.2)
  else acc

/-- Modelled from the spec: `PolicyAgent.ParseCompiled` (absent from src —
only its tests remain). Walks the compiled modules applying
`parseCompiledStep`. -/
def ParseCompiled (modules : List RegoModule) : List PolicyMeta × List String :=
  modules.foldr parseCompiledStep ([], [])

/-- The step of `processRegoResult` appended one policy to the errored list
and left the successful map untouched. -/
def erroredAppendStep (before after : PolicyEvaluationResult) : Prop :=
  after.successful = before.successful ∧ ∃ p, after.errored = before.errored ++ [p]

/-- The step of `processRegoResult` appended one policy to exactly one group
of the successful map and left the errored list untouched. -/
def successfulAppendStep (before after : PolicyEvaluationResult) : Prop :=
  after.errored = before.errored ∧
  ∃ p : Policy, after.Policies p.Group = before.Policies p.Group ++ [p] ∧
    ∀ g, g ≠ p.Group → after.Policies g = before.Policies g

/-- The Valid partition of a group: its successful policies whose verdict is
true (the policies counted by `validCount`). -/
def PolicyEvaluationResult.validPolicies (r : PolicyEvaluationResult) (group : String) :
    List Policy :=
  (r.Policies group).filter (fun p => p.Valid)

/-- The Violated partition of a group: its successful policies whose verdict
is false (the policies counted by `violatedCount`). -/
def PolicyEvaluationResult.violatedPolicies (r : PolicyEvaluationResult) (group : String) :
    List Policy :=
  (r.Policies group).filter (fun p => ! p.Valid)

/-- A well-formed rego expression value: policy p1 in the empty-string
group with verdict true and no violations. -/
def sampleWf : GoVal :=
  .map [("name", .str "p1"),
    ("data", .map [("name", .str "gke.policy.p1"), ("description", .str "desc"),
      ("group", .str ""), ("valid", .bool true), ("violation", .list [])])]

/-- The policy parsed out of `sampleWf`. -/
def sampleWfPolicy : Policy :=
  { Name := "p1", FullName := "gke.policy.p1", Description := "desc",
    Group := "", Valid := true, Violations := [], ProcessingErrors := [] }

/-- An expression value whose data map carries a boolean `valid` but no
`violation` key. -/
def sampleNoViolation : GoVal :=
  .map [("name", .str "p1"),
    ("data", .map [("name", .str "gke.policy.p1"), ("description", .str "desc"),
      ("group", .str "Security"), ("valid", .bool true)])]

/-- The policy parsed out of `sampleNoViolation`: fields copied up to the
verdict, then a processing error for the missing `violation` key. -/
def sampleNoViolationPolicy : Policy :=
  { Name := "p1", FullName := "gke.policy.p1", Description := "desc",
    Group := "Security", Valid := true, Violations := [],
    ProcessingErrors := ["map does not contain key: violation"] }

theorem assocFind?_assocSet_self {α : Type} (m : List (String × α)) (k : String) (v : α) :
    assocFind? (assocSet m k v) k = some v := by
  induction m with
  | nil => simp [assocSet, assocFind?]
  | cons hd tl ih =>
    obtain ⟨k', w⟩ := hd
    by_cases h : k' = k
    · simp [assocSet, h, assocFind?]
    · simp [assocSet, h, assocFind?, ih]

theorem assocFind?_assocSet_ne {α : Type} (m : List (String × α)) {k k' : String}
    (v : α) (h : k' ≠ k) : assocFind? (assocSet m k v) k' = assocFind? m k' := by
  have hne : ¬ k = k' := fun hh => h hh.symm
  induction m with
  | nil => simp [assocSet, assocFind?, hne]
  | cons hd tl ih =>
    obtain ⟨k'', w⟩ := hd
    by_cases hk : k'' = k
    · subst hk
      simp only [assocSet, if_pos rfl, assocFind?, if_neg hne]
    · simp only [assocSet, if_neg hk, assocFind?]
      by_cases hk' : k'' = k'
      · simp [hk']
      · simp [hk', ih]

theorem assocGet_assocSet_self {α : Type} (m : List (String × α)) (k : String)
    (v d : α) : assocGet (assocSet m k v) k d = v := by
  simp [assocGet, assocFind?_assocSet_self]

theorem assocGet_assocSet_ne {α : Type} (m : List (String × α)) {k k' : String}
    (v d : α) (h : k' ≠ k) : assocGet (assocSet m k v) k' d = assocGet m k' d := by
  simp [assocGet, assocFind?_assocSet_ne m v h]

theorem processOne_parse_error {acc : PolicyEvaluationResult} {v : GoVal} {e : String}
    (hp : parseRegoExpressionValue v = .error e) :
    processOne acc v =
      acc.AppendErroredPolicy { Policy.empty with ProcessingErrors := [e] } := by
  simp [processOne, hp]

theorem processOne_ok_errored {acc : PolicyEvaluationResult} {v : GoVal} {p : Policy}
    (hp : parseRegoExpressionValue v = .ok p) (he : p.ProcessingErrors ≠ []) :
    processOne acc v = acc.AppendErroredPolicy p := by
  have hlen : p.ProcessingErrors.length > 0 := List.length_pos.mpr he
  simp [processOne, hp, hlen]

theorem processOne_ok_successful {acc : PolicyEvaluationResult} {v : GoVal} {p : Policy}
    (hp : parseRegoExpressionValue v = .ok p) (he : p.ProcessingErrors = []) :
    processOne acc v = acc.AppendSuccessfulPolicy p := by
  simp [processOne, hp, he]

theorem erroredAppendStep_not_successful {a r : PolicyEvaluationResult}
    (h : erroredAppendStep a r) : ¬ successfulAppendStep a r := by
  obtain ⟨-, p, hp⟩ := h
  intro hs
  have := hs.1
  rw [hp] at this
  have := congrArg List.length this
  simp at this

/-- Claim C1: Every element of the rego expression-value list processed by the
loop of `processRegoResult` produces exactly one append: either to the
errored list, or to exactly one group of the successful map — never both
and never neither. -/
theorem processOne_exactly_one_append (acc : PolicyEvaluationResult) (v : GoVal) :
    (erroredAppendStep acc (processOne acc v) ∧
      ¬ successfulAppendStep acc (processOne acc v)) ∨
    (successfulAppendStep acc (processOne acc v) ∧
      ¬ erroredAppendStep acc (processOne acc v)) := by
  have herr : ∀ p : Policy, erroredAppendStep acc (acc.AppendErroredPolicy p) := by
    intro p
    exact ⟨rfl, p, rfl⟩
  cases hp : parseRegoExpressionValue v with
  | error e =>
    rw [processOne_parse_error hp]
    exact Or.inl ⟨herr _, erroredAppendStep_not_successful (herr _)⟩
  | ok p =>
    by_cases he : p.ProcessingErrors = []
    · rw [processOne_ok_successful hp he]
      have hs : successfulAppendStep acc (acc.AppendSuccessfulPolicy p) := by
        refine ⟨rfl, p, ?_, ?_⟩
        · simp [PolicyEvaluationResult.AppendSuccessfulPolicy,
            PolicyEvaluationResult.Policies, assocGet_assocSet_self]
        · intro g hg
          simp [PolicyEvaluationResult.AppendSuccessfulPolicy,
            PolicyEvaluationResult.Policies, assocGet_assocSet_ne _ _ _ hg]
      refine Or.inr ⟨hs, ?_⟩
      intro hcon
      exact erroredAppendStep_not_successful hcon hs
    · rw [processOne_ok_errored hp he]
      exact Or.inl ⟨herr _, erroredAppendStep_not_successful (herr _)⟩

/-- Witness for claim C1: the classification of a concrete malformed entry. -/
theorem processOne_exactly_one_append_witness :
    (erroredAppendStep PolicyEvaluationResult.empty
        (processOne PolicyEvaluationResult.empty (GoVal.str "junk")) ∧
      ¬ successfulAppendStep PolicyEvaluationResult.empty
        (processOne PolicyEvaluationResult.empty (GoVal.str "junk"))) ∨
    (successfulAppendStep PolicyEvaluationResult.empty
        (processOne PolicyEvaluationResult.empty (GoVal.str "junk")) ∧
      ¬ erroredAppendStep PolicyEvaluationResult.empty
        (processOne PolicyEvaluationResult.empty (GoVal.str "junk"))) :=
  processOne_exactly_one_append PolicyEvaluationResult.empty (GoVal.str "junk")

/-- Claim C2: The classification of a parsed policy is deterministic: processing
errors send it to the errored list unconditionally; otherwise it is appended
to the successful map under its group key (the empty string included), and
it lands in the Valid or Violated partition of that group by its verdict,
with the matching counter bumped. -/
theorem classification_deterministic (acc : PolicyEvaluationResult) (v : GoVal)
    (p : Policy) (hp : parseRegoExpressionValue v = .ok p) :
    (p.ProcessingErrors ≠ [] →
      processOne acc v = { acc with errored := acc.errored ++ [p] }) ∧
    (p.ProcessingErrors = [] →
      processOne acc v = { acc with
        successful := assocSet acc.successful p.Group (acc.Policies p.Group ++ [p]),
        validCount := if p.Valid then acc.validCount + 1 else acc.validCount,
        violatedCount := if p.Valid then acc.violatedCount else acc.violatedCount + 1 } ∧
      (p.Valid = true →
        (processOne acc v).validPolicies p.Group = acc.validPolicies p.Group ++ [p] ∧
        (processOne acc v).violatedPolicies p.Group = acc.violatedPolicies p.Group ∧
        (processOne acc v).errored = acc.errored) ∧
      (p.Valid = false →
        (processOne acc v).violatedPolicies p.Group = acc.violatedPolicies p.Group ++ [p] ∧
        (processOne acc v).validPolicies p.Group = acc.validPolicies p.Group ∧
        (processOne acc v).errored = acc.errored)) := by
  constructor
  · intro he
    rw [processOne_ok_errored hp he]
    rfl
  · intro he
    have hstep := @processOne_ok_successful acc v p hp he
    have hpol : (processOne acc v).Policies p.Group = acc.Policies p.Group ++ [p] := by
      rw [hstep]
      simp [PolicyEvaluationResult.AppendSuccessfulPolicy,
        PolicyEvaluationResult.Policies, assocGet_assocSet_self]
    refine ⟨by rw [hstep]; rfl, ?_, ?_⟩
    · intro hv
      refine ⟨?_, ?_, by rw [hstep]; rfl⟩
      · simp [PolicyEvaluationResult.validPolicies, hpol, List.filter_append, hv]
      · simp [PolicyEvaluationResult.violatedPolicies, hpol, List.filter_append, hv]
    · intro hv
      refine ⟨?_, ?_, by rw [hstep]; rfl⟩
      · simp [PolicyEvaluationResult.violatedPolicies, hpol, List.filter_append, hv]
      · simp [PolicyEvaluationResult.validPolicies, hpol, List.filter_append, hv]

/-- Witness for claim C2: a concrete empty-group valid policy is appended to the
successful map under the empty-string key with `validCount` bumped. -/
theorem classification_deterministic_witness :
    processOne PolicyEvaluationResult.empty sampleWf =
      { successful := [("", [sampleWfPolicy])], errored := [],
        validCount := 1, violatedCount := 0 } := by
  have h := classification_deterministic PolicyEvaluationResult.empty sampleWf
    sampleWfPolicy (by rfl)
  rw [(h.2 (by rfl)).1]
  rfl

theorem processOne_count (acc : PolicyEvaluationResult) (v : GoVal) :
    (processOne acc v).validCount + (processOne acc v).violatedCount +
      (processOne acc v).errored.length =
    acc.validCount + acc.violatedCount + acc.errored.length + 1 := by
  cases hp : parseRegoExpressionValue v with
  | error e =>
    rw [processOne_parse_error hp]
    simp [PolicyEvaluationResult.AppendErroredPolicy]
    omega
  | ok p =>
    by_cases he : p.ProcessingErrors = []
    · rw [processOne_ok_successful hp he]
      simp only [PolicyEvaluationResult.AppendSuccessfulPolicy]
      by_cases hv : p.Valid <;> simp [hv] <;> omega
    · rw [processOne_ok_errored hp he]
      simp [PolicyEvaluationResult.AppendErroredPolicy]
      omega

theorem foldl_processOne_count (values : List GoVal) :
    ∀ acc : PolicyEvaluationResult,
      (values.foldl processOne acc).validCount +
        (values.foldl processOne acc).violatedCount +
        (values.foldl processOne acc).errored.length =
      acc.validCount + acc.violatedCount + acc.errored.length + values.length := by
  induction values with
  | nil => intro acc; simp
  | cons v rest ih =>
    intro acc
    have := processOne_count acc v
    simp only [List.foldl_cons, List.length_cons]
    rw [ih (processOne acc v)]
    omega

/-- Claim C3: The three counters partition the processed outcomes: when
`processRegoResult` succeeds on a result whose expression value list is
`values`, ValidCount + ViolatedCount + ErroredCount equals the number of
entries of `values`; each successful append bumps exactly the counter
matching the verdict; and ErroredCount is the length of the errored list. -/
theorem counts_sum_to_outcomes :
    (∀ (res : RegoResult) (values : List GoVal),
      getExpressionValueList res 0 = .ok values →
      ∃ r, processRegoResult res = (some r, none) ∧
        r.ValidCount + r.ViolatedCount + r.ErroredCount = values.length) ∧
    (∀ (acc : PolicyEvaluationResult) (p : Policy),
      (acc.AppendSuccessfulPolicy p).validCount =
        (if p.Valid then acc.validCount + 1 else acc.validCount) ∧
      (acc.AppendSuccessfulPolicy p).violatedCount =
        (if p.Valid then acc.violatedCount else acc.violatedCount + 1) ∧
      (acc.AppendSuccessfulPolicy p).errored = acc.errored) ∧
    (∀ r : PolicyEvaluationResult, r.ErroredCount = r.errored.length) := by
  refine ⟨?_, ?_, fun r => rfl⟩
  · intro res values h
    refine ⟨values.foldl processOne PolicyEvaluationResult.empty, ?_, ?_⟩
    · simp [processRegoResult, h]
    · have := foldl_processOne_count values PolicyEvaluationResult.empty
      simpa [PolicyEvaluationResult.ValidCount, PolicyEvaluationResult.ViolatedCount,
        PolicyEvaluationResult.ErroredCount, PolicyEvaluationResult.empty] using this
  · intro acc p
    exact ⟨rfl, rfl, rfl⟩

/-- Witness for claim C3: a concrete two-entry list yields counters summing to 2. -/
theorem counts_sum_to_outcomes_witness :
    ∃ r, processRegoResult
        { Expressions := [{ Value := GoVal.list [sampleWf, GoVal.str "junk"] }] } =
        (some r, none) ∧
      r.ValidCount + r.ViolatedCount + r.ErroredCount = 2 :=
  counts_sum_to_outcomes.1
    { Expressions := [{ Value := GoVal.list [sampleWf, GoVal.str "junk"] }] }
    [sampleWf, GoVal.str "junk"] (by rfl)

theorem assocSet_mem_self {α : Type} (m : List (String × α)) (k : String) (v : α) :
    (k, v) ∈ assocSet m k v := by
  induction m with
  | nil => simp [assocSet]
  | cons hd tl ih =>
    obtain ⟨k', w⟩ := hd
    by_cases h : k' = k
    · simp [assocSet, h]
    · simp only [assocSet, if_neg h]
      exact List.mem_cons_of_mem _ ih

theorem assocSet_mem_of_ne {α : Type} {m : List (String × α)} {a : String} {b : α}
    {k : String} (v : α) (hm : (a, b) ∈ m) (h : a ≠ k) : (a, b) ∈ assocSet m k v := by
  induction m with
  | nil => cases hm
  | cons hd tl ih =>
    obtain ⟨k', w⟩ := hd
    rcases List.mem_cons.mp hm with heq | hmem
    · cases heq
      simp only [assocSet, if_neg h]
      exact List.mem_cons_self _ _
    · by_cases hk : k' = k
      · simp only [assocSet, if_pos hk]
        exact List.mem_cons_of_mem _ hmem
      · simp only [assocSet, if_neg hk]
        exact List.mem_cons_of_mem _ (ih hmem)

theorem foldl_assocSet_mem (files : List PolicyFile) :
    ∀ (m : List (String × String)) (a b : String),
      (a, b) ∈ m → (∀ fl ∈ files, fl.FullName ≠ a) →
      (a, b) ∈ files.foldl (fun acc fl => assocSet acc fl.FullName fl.Content) m := by
  induction files with
  | nil => intro m a b hm _; simpa using hm
  | cons f rest ih =>
    intro m a b hm hall
    simp only [List.foldl_cons]
    apply ih
    · exact assocSet_mem_of_ne _ hm (fun hh => hall f (by simp) hh.symm)
    · intro fl hfl
      exact hall fl (List.mem_cons_of_mem _ hfl)

theorem mkModules_mem (files : List PolicyFile) :
    ∀ (f : PolicyFile) (m : List (String × String)),
      f ∈ files → (files.map PolicyFile.FullName).Nodup →
      (f.FullName, f.Content) ∈
        files.foldl (fun acc fl => assocSet acc fl.FullName fl.Content) m := by
  induction files with
  | nil => intro f m hf _; cases hf
  | cons g rest ih =>
    intro f m hf hnd
    simp only [List.map_cons, List.nodup_cons] at hnd
    obtain ⟨hnotin, hnd'⟩ := hnd
    simp only [List.foldl_cons]
    rcases List.mem_cons.mp hf with heq | hmem
    · subst heq
      apply foldl_assocSet_mem
      · exact assocSet_mem_self m f.FullName f.Content
      · intro fl hfl heq2
        exact hnotin (heq2 ▸ List.mem_map_of_mem PolicyFile.FullName hfl)
    · exact ih f _ hmem hnd'

/-- Claim C4: A batch with a syntactically invalid file (under distinct file
paths) makes compilation fail with an error and no module set, and
`EvaluatePolicies` stops there, returning that error and no result. -/
theorem compile_all_or_nothing (parses : String → Bool)
    (evalRego : List (String × String) → Except String (List RegoResult))
    (files : List PolicyFile) (f : PolicyFile)
    (hmem : f ∈ files) (hbad : parses f.Content = false)
    (hnodup : (files.map PolicyFile.FullName).Nodup) :
    ∃ e, Compile parses (mkModules files) = .error e ∧
      EvaluatePolicies parses evalRego files = (none, some e) := by
  have hin : (f.FullName, f.Content) ∈ mkModules files :=
    mkModules_mem files f [] hmem hnodup
  cases hfind : (mkModules files).find? (fun kv => ! parses kv.2) with
  | none =>
    have hnone := List.find?_eq_none.mp hfind _ hin
    simp [hbad] at hnone
  | some kv =>
    refine ⟨"compile error in " ++ kv.1, ?_, ?_⟩
    · simp [Compile, hfind]
    · simp [EvaluatePolicies, Compile, hfind]

/-- Witness for claim C4: a concrete two-file batch with one invalid file. -/
theorem compile_all_or_nothing_witness :
    ∃ e, Compile (fun s => ! (s == "bad")) (mkModules
        [{ Name := "a.rego", FullName := "folder/a.rego", Content := "good" },
         { Name := "b.rego", FullName := "folder/b.rego", Content := "bad" }]) =
        .error e ∧
      EvaluatePolicies (fun s => ! (s == "bad")) (fun _ => .ok [])
        [{ Name := "a.rego", FullName := "folder/a.rego", Content := "good" },
         { Name := "b.rego", FullName := "folder/b.rego", Content := "bad" }] =
        (none, some e) :=
  compile_all_or_nothing _ _ _
    { Name := "b.rego", FullName := "folder/b.rego", Content := "bad" }
    (List.mem_cons_of_mem _ (List.mem_singleton.mpr rfl)) (by rfl) (by simp)

theorem processRegoResult_not_none_none (res : RegoResult) :
    ¬ ((processRegoResult res).1 = none ∧ (processRegoResult res).2 = none) := by
  cases h : getExpressionValueList res 0 with
  | error e => simp [processRegoResult, h]
  | ok values => simp [processRegoResult, h]

/-- Claim C9: When compilation succeeds but the rego evaluation returns an empty
result set, `EvaluatePolicies` returns no result together with the
empty-result-set error; and it never returns no result with no error. -/
theorem evaluatePolicies_empty_resultset :
    (∀ (parses : String → Bool)
        (evalRego : List (String × String) → Except String (List RegoResult))
        (files : List PolicyFile) (ms : List (String × String)),
      Compile parses (mkModules files) = .ok ms →
      evalRego ms = .ok [] →
      EvaluatePolicies parses evalRego files =
        (none, some "rego evaluation returned empty result set")) ∧
    (∀ (parses : String → Bool)
        (evalRego : List (String × String) → Except String (List RegoResult))
        (files : List PolicyFile),
      ¬ ((EvaluatePolicies parses evalRego files).1 = none ∧
         (EvaluatePolicies parses evalRego files).2 = none)) := by
  constructor
  · intro parses evalRego files ms hc he
    simp [EvaluatePolicies, hc, he]
  · intro parses evalRego files
    cases hc : Compile parses (mkModules files) with
    | error e => simp [EvaluatePolicies, hc]
    | ok ms =>
      cases he : evalRego ms with
      | error e => simp [EvaluatePolicies, hc, he]
      | ok rs =>
        by_cases hlen : rs.length < 1
        · simp [EvaluatePolicies, hc, he, hlen]
        · simp only [EvaluatePolicies, hc, he, if_neg hlen]
          exact processRegoResult_not_none_none _

/-- Witness for claim C9: a run whose rego evaluation yields the empty result set. -/
theorem evaluatePolicies_empty_resultset_witness :
    EvaluatePolicies (fun _ => true) (fun _ => .ok []) [] =
      (none, some "rego evaluation returned empty result set") :=
  evaluatePolicies_empty_resultset.1 _ _ [] [] (by rfl) (by rfl)

/-- Counterexample for claim C5: a raw result carrying no expression at index 0 is
not routed into the Errored partition — `processRegoResult` aborts, giving
back no result and an error, so the remaining batch is not processed. -/
theorem result_without_expression_aborts :
    processRegoResult { Expressions := [] } =
      (none,
       some "failed to get expression value from rego result: no expresion with index 0 in rego result") := by
  rfl

/-- Claim C5 as amended: A raw result with no expression at the queried index, or
whose expression value at that index is not a list, makes
`processRegoResult` return no result and a non-nil error, aborting the
batch; an entry of the expression-value list that fails to parse (not a
map, or no identifying name) is routed into the Errored partition as an
unnamed entry carrying one processing error, and processing continues with
the remaining entries. -/
theorem malformed_handling_split :
    (∀ res : RegoResult, res.Expressions = [] →
      processRegoResult res =
        (none,
         some "failed to get expression value from rego result: no expresion with index 0 in rego result")) ∧
    (∀ (res : RegoResult) (ev : ExpressionValue) (rest : List ExpressionValue),
      res.Expressions = ev :: rest → (∀ xs, ev.Value ≠ GoVal.list xs) →
      ∃ e, processRegoResult res = (none, some e)) ∧
    (∀ (acc : PolicyEvaluationResult) (v : GoVal) (rest : List GoVal) (e : String),
      parseRegoExpressionValue v = .error e →
      (v :: rest).foldl processOne acc =
        rest.foldl processOne
          { acc with errored := acc.errored ++
              [{ Policy.empty with ProcessingErrors := [e] }] }) := by
  refine ⟨?_, ?_, ?_⟩
  · intro res h
    have hres : res = { Expressions := [] } := by
      cases res
      simp only [RegoResult.mk.injEq]
      exact h
    rw [hres]
    rfl
  · intro res ev rest h hnl
    have hres : res = { Expressions := ev :: rest } := by
      cases res
      simp only [RegoResult.mk.injEq]
      exact h
    subst hres
    refine ⟨"failed to get expression value from rego result: " ++
      "rego expression value is not a list of interface values", ?_⟩
    cases hv : ev.Value
    case list xs => exact absurd hv (hnl xs)
    all_goals simp [processRegoResult, getExpressionValueList, hv]
  · intro acc v rest e hp
    simp only [List.foldl_cons]
    rw [processOne_parse_error hp]
    rfl

/-- Witness for amended claim C5: a concrete non-map entry becomes an unnamed errored
policy and the (empty) remainder of the batch is still processed. -/
theorem malformed_handling_split_witness :
    ([GoVal.str "junk"] : List GoVal).foldl processOne PolicyEvaluationResult.empty =
      { successful := [],
        errored := [{ Policy.empty with
          ProcessingErrors := ["rego expression value is not a string-keyed map"] }],
        validCount := 0, violatedCount := 0 } :=
  (malformed_handling_split.2.2 PolicyEvaluationResult.empty (GoVal.str "junk")
    [] "rego expression value is not a string-keyed map" (by rfl)).trans (by rfl)

/-- Counterexample for claim C6: an expression value with a boolean `valid` but no
`violation` key gets a processing error recorded and is routed into the
Errored partition — the `violation` field is not optional. -/
theorem violation_missing_is_error_counterexample :
    parseRegoExpressionValue sampleNoViolation = .ok sampleNoViolationPolicy ∧
    sampleNoViolationPolicy.ProcessingErrors = ["map does not contain key: violation"] ∧
    processOne PolicyEvaluationResult.empty sampleNoViolation =
      { successful := [], errored := [sampleNoViolationPolicy],
        validCount := 0, violatedCount := 0 } :=
  ⟨by rfl, by rfl, by rfl⟩

theorem toStringList_ok (nm : String) (vs : List String) :
    ∀ i, toStringList nm (vs.map GoVal.str) i = .ok vs := by
  induction vs with
  | nil => intro i; rfl
  | cons s rest ih =>
    intro i
    simp [toStringList, ih]

theorem toStringList_err (nm : String) (x : GoVal) (hx : ∀ s, x ≠ .str s)
    (rest : List GoVal) (pre : List String) :
    ∀ i, toStringList nm (pre.map GoVal.str ++ x :: rest) i =
      .error (listElemErr nm (i + pre.length)) := by
  induction pre with
  | nil =>
    intro i
    simp only [List.map_nil, List.nil_append, List.length_nil, Nat.add_zero]
    cases x
    case str s => exact absurd rfl (hx s)
    all_goals rfl
  | cons s pre' ih =>
    intro i
    have hstep : toStringList nm ((s :: pre').map GoVal.str ++ x :: rest) i =
        match toStringList nm (pre'.map GoVal.str ++ x :: rest) (i + 1) with
        | .ok l => .ok (s :: l)
        | .error e => .error e := rfl
    rw [hstep, ih (i + 1)]
    have harith : i + 1 + pre'.length = i + (s :: pre').length := by
      simp only [List.length_cons]
      omega
    rw [harith]

theorem getStringListFromInterfaceMap_not_list (nm : String)
    (m : List (String × GoVal)) (x : GoVal) (hx : assocFind? m nm = some x)
    (hnl : ∀ xs, x ≠ .list xs) :
    getStringListFromInterfaceMap nm m =
      .error ("key " ++ nm ++ " is not a list of interface values") := by
  cases x
  case list xs => exact absurd rfl (hnl xs)
  all_goals simp [getStringListFromInterfaceMap, hx]

theorem mapRegoPolicyData_wf (p0 : Policy) (m : List (String × GoVal))
    (nm d g : String) (b : Bool) (vs : List String)
    (hn : assocFind? m "name" = some (.str nm))
    (hdesc : assocFind? m "description" = some (.str d))
    (hg : assocFind? m "group" = some (.str g))
    (hv : assocFind? m "valid" = some (.bool b))
    (hviol : assocFind? m "violation" = some (.list (vs.map GoVal.str))) :
    p0.mapRegoPolicyData (.map m) =
      ({ p0 with
          FullName := nm, Description := d, Group := g, Valid := b,
          Violations := vs }, none) := by
  simp [Policy.mapRegoPolicyData, getStringFromInterfaceMap,
    getBoolFromInterfaceMap, getStringListFromInterfaceMap, hn, hdesc, hg, hv,
    hviol, toStringList_ok]

theorem strList_decomp (xs : List GoVal) :
    (∃ vs : List String, xs = vs.map GoVal.str) ∨
    (∃ (pre : List String) (x : GoVal) (rest : List GoVal),
      xs = pre.map GoVal.str ++ x :: rest ∧ ∀ s, x ≠ GoVal.str s) := by
  induction xs with
  | nil => exact Or.inl ⟨[], rfl⟩
  | cons v xs ih =>
    by_cases hstr : ∃ s, v = GoVal.str s
    · obtain ⟨s, rfl⟩ := hstr
      rcases ih with ⟨vs, rfl⟩ | ⟨pre, x, rest, rfl, hns⟩
      · exact Or.inl ⟨s :: vs, rfl⟩
      · exact Or.inr ⟨s :: pre, x, rest, rfl, hns⟩
    · exact Or.inr ⟨[], v, xs, rfl, fun s h => hstr ⟨s, h⟩⟩

theorem mapRegoPolicyData_elem_err (p0 : Policy) (m : List (String × GoVal))
    (nm d g : String) (b : Bool)
    (hn : assocFind? m "name" = some (.str nm))
    (hdesc : assocFind? m "description" = some (.str d))
    (hg : assocFind? m "group" = some (.str g))
    (hv : assocFind? m "valid" = some (.bool b))
    (pre : List String) (x : GoVal) (rest : List GoVal)
    (hviol : assocFind? m "violation" = some (.list (pre.map GoVal.str ++ x :: rest)))
    (hns : ∀ s, x ≠ GoVal.str s) :
    p0.mapRegoPolicyData (.map m) =
      ({ p0 with FullName := nm, Description := d, Group := g, Valid := b },
       some (listElemErr "violation" pre.length)) := by
  simp [Policy.mapRegoPolicyData, getStringFromInterfaceMap,
    getBoolFromInterfaceMap, getStringListFromInterfaceMap, hn, hdesc, hg, hv,
    hviol, toStringList_err "violation" x hns rest pre 0]

/-- Claim C6 as amended: In a data map with well-typed name, description, group and
valid fields, the `violation` field is required: when it is absent a
processing error names the missing key; when it is present but not a list,
or a list containing a non-string element, an error is recorded as well;
the mapping succeeds without error exactly when it is a list of strings,
copying the verdict and the messages; and any outcome whose data map makes
the mapping fail is appended to the Errored partition carrying that
processing error. -/
theorem violation_field_required (p0 : Policy) (m : List (String × GoVal))
    (nm d g : String) (b : Bool)
    (hn : assocFind? m "name" = some (.str nm))
    (hdesc : assocFind? m "description" = some (.str d))
    (hg : assocFind? m "group" = some (.str g))
    (hv : assocFind? m "valid" = some (.bool b)) :
    (assocFind? m "violation" = none →
      p0.mapRegoPolicyData (.map m) =
        ({ p0 with FullName := nm, Description := d, Group := g, Valid := b },
         some "map does not contain key: violation")) ∧
    (∀ x, assocFind? m "violation" = some x → (∀ xs, x ≠ GoVal.list xs) →
      ∃ e, p0.mapRegoPolicyData (.map m) =
        ({ p0 with FullName := nm, Description := d, Group := g, Valid := b },
         some e)) ∧
    (∀ (pre : List String) (x : GoVal) (rest : List GoVal),
      assocFind? m "violation" = some (.list (pre.map GoVal.str ++ x :: rest)) →
      (∀ s, x ≠ GoVal.str s) →
      p0.mapRegoPolicyData (.map m) =
        ({ p0 with FullName := nm, Description := d, Group := g, Valid := b },
         some (listElemErr "violation" pre.length))) ∧
    (∀ vs : List String,
      assocFind? m "violation" = some (.list (vs.map GoVal.str)) →
      p0.mapRegoPolicyData (.map m) =
        ({ p0 with
            FullName := nm, Description := d, Group := g, Valid := b,
            Violations := vs }, none)) ∧
    (∀ (xs : List GoVal) (pol : Policy),
      assocFind? m "violation" = some (.list xs) →
      p0.mapRegoPolicyData (.map m) = (pol, none) →
      ∃ vs : List String, xs = vs.map GoVal.str) ∧
    (∀ (acc : PolicyEvaluationResult) (valueMap : List (String × GoVal))
        (nm0 e : String) (pol : Policy),
      assocFind? valueMap "name" = some (.str nm0) →
      assocFind? valueMap "data" = some (.map m) →
      Policy.mapRegoPolicyData { Policy.empty with Name := nm0 } (.map m) =
        (pol, some e) →
      processOne acc (.map valueMap) =
        acc.AppendErroredPolicy { pol with ProcessingErrors := [e] }) := by
  refine ⟨?_, ?_, ?_, ?_, ?_, ?_⟩
  · intro hmiss
    simp [Policy.mapRegoPolicyData, getStringFromInterfaceMap,
      getBoolFromInterfaceMap, getStringListFromInterfaceMap, hn, hdesc, hg, hv,
      hmiss]
  · intro x hx hnl
    refine ⟨"key violation is not a list of interface values", ?_⟩
    simp [Policy.mapRegoPolicyData, getStringFromInterfaceMap,
      getBoolFromInterfaceMap, hn, hdesc, hg, hv,
      getStringListFromInterfaceMap_not_list "violation" m x hx hnl]
  · intro pre x rest hviol hns
    exact mapRegoPolicyData_elem_err p0 m nm d g b hn hdesc hg hv pre x rest
      hviol hns
  · intro vs hviol
    exact mapRegoPolicyData_wf p0 m nm d g b vs hn hdesc hg hv hviol
  · intro xs pol hviol hok
    rcases strList_decomp xs with ⟨vs, rfl⟩ | ⟨pre, x, rest, rfl, hns⟩
    · exact ⟨vs, rfl⟩
    · rw [mapRegoPolicyData_elem_err p0 m nm d g b hn hdesc hg hv pre x rest
        hviol hns] at hok
      simp at hok
  · intro acc valueMap nm0 e pol hname hdata hmap
    have hparse : parseRegoExpressionValue (.map valueMap) =
        .ok { pol with ProcessingErrors := [e] } := by
      simp [parseRegoExpressionValue, getStringFromInterfaceMap, hname, hdata,
        hmap]
    rw [processOne_ok_errored hparse (by simp)]

/-- Witness for amended claim C6: a concrete data map without a `violation` key. -/
theorem violation_field_required_witness :
    Policy.empty.mapRegoPolicyData (GoVal.map [("name", GoVal.str "n"),
        ("description", GoVal.str "d"), ("group", GoVal.str "g"),
        ("valid", GoVal.bool false)]) =
      ({ Policy.empty with
          FullName := "n", Description := "d", Group := "g",
          Valid := false }, some "map does not contain key: violation") :=
  (violation_field_required Policy.empty
    [("name", GoVal.str "n"), ("description", GoVal.str "d"),
     ("group", GoVal.str "g"), ("valid", GoVal.bool false)]
    "n" "d" "g" false rfl rfl rfl rfl).1 rfl

/-- Claim C10: `getStringListFromInterfaceMap` returns the `violation` sequence
element-wise when every element is a string (same length, order and text);
a non-string element at index i yields an error naming i and no list; and
under a fully well-formed data map the parsed messages land verbatim and in
order on the policy's Violations. -/
theorem stringList_elementwise (nm : String) (m : List (String × GoVal)) :
    (∀ vs : List String, assocFind? m nm = some (.list (vs.map GoVal.str)) →
      getStringListFromInterfaceMap nm m = .ok vs) ∧
    (∀ (pre : List String) (x : GoVal) (rest : List GoVal),
      assocFind? m nm = some (.list (pre.map GoVal.str ++ x :: rest)) →
      (∀ s, x ≠ GoVal.str s) →
      getStringListFromInterfaceMap nm m = .error (listElemErr nm pre.length)) ∧
    (∀ (p0 : Policy) (nm2 d g : String) (b : Bool) (vs : List String),
      assocFind? m "name" = some (.str nm2) →
      assocFind? m "description" = some (.str d) →
      assocFind? m "group" = some (.str g) →
      assocFind? m "valid" = some (.bool b) →
      assocFind? m "violation" = some (.list (vs.map GoVal.str)) →
      (p0.mapRegoPolicyData (.map m)).1.Violations = vs) := by
  refine ⟨?_, ?_, ?_⟩
  · intro vs h
    simp [getStringListFromInterfaceMap, h, toStringList_ok]
  · intro pre x rest h hx
    simp [getStringListFromInterfaceMap, h, toStringList_err nm x hx rest pre 0]
  · intro p0 nm2 d g b vs h1 h2 h3 h4 h5
    rw [mapRegoPolicyData_wf p0 m nm2 d g b vs h1 h2 h3 h4 h5]

/-- Witness for claim C10: a concrete list with a non-string element at index 1. -/
theorem stringList_elementwise_witness :
    getStringListFromInterfaceMap "violation"
        [("violation", GoVal.list [GoVal.str "a", GoVal.num 3])] =
      .error (listElemErr "violation" 1) :=
  (stringList_elementwise "violation" _).2.1 ["a"] (GoVal.num 3) []
    rfl (by intro s h; cases h)

/-- Claim C7: `MetadataErrors` yields exactly one diagnostic per empty required
field among title, description and group — its length is the number of
empty fields (0 for a complete policy, 3 for one missing all three), and
the diagnostics are pairwise distinct. -/
theorem metadataErrors_count_missing (p : PolicyMeta) :
    p.MetadataErrors.length =
      ((if p.Title = "" then 1 else 0) + (if p.Description = "" then 1 else 0) +
        (if p.Group = "" then 1 else 0)) ∧
    p.MetadataErrors.Nodup := by
  unfold PolicyMeta.MetadataErrors
  constructor
  · split_ifs <;> rfl
  · split_ifs <;> simp

/-- Claim C8: The metadata extractor processes exactly the eligible modules: its
output on any module list equals its output on the eligible sublist, and a
single ineligible module yields neither a policy nor an error. -/
theorem parseCompiled_skips_ineligible :
    (∀ modules : List RegoModule,
      ParseCompiled modules =
        ParseCompiled (modules.filter (fun m => eligibleModule m))) ∧
    (∀ m : RegoModule, eligibleModule m = false → ParseCompiled [m] = ([], [])) := by
  constructor
  · intro modules
    induction modules with
    | nil => rfl
    | cons m rest ih =>
      by_cases h : eligibleModule m = true
      · rw [List.filter_cons_of_pos h]
        show parseCompiledStep m (ParseCompiled rest) =
          parseCompiledStep m (ParseCompiled (rest.filter fun m => eligibleModule m))
        rw [ih]
      · have h' : eligibleModule m = false := by simpa using h
        rw [List.filter_cons_of_neg (by simp [h'])]
        show parseCompiledStep m (ParseCompiled rest) =
          ParseCompiled (rest.filter fun m => eligibleModule m)
        rw [← ih]
        simp [parseCompiledStep, h']
  · intro m h
    show parseCompiledStep m (ParseCompiled []) = ([], [])
    simp [parseCompiledStep, h, ParseCompiled]

/-- Witness for claim C8: a concrete module outside the policy namespace is skipped
silently. -/
theorem parseCompiled_skips_ineligible_witness :
    ParseCompiled [{
      Package := "gke.something.invalid", Name := "test_three.rego",
      File := "folder/test_three.rego", Title := "TitleThree",
      Description := "Test", Group := "Test" }] = ([], []) :=
  parseCompiled_skips_ineligible.2 _ (by decide)

end GkeReview
